import Mathlib

/-!
Verification of the bulk mailbox maintenance scripts (`main.py` and
`one_thousand_batch.py`): a shallow embedding of the chunker, the pagination
loops, the batch-delete driver, the label resolver and the interactive main
path, with theorems settling the specified properties.
-/

set_option maxRecDepth 100000

namespace EmailBlaster

/-- The index sequence of Python `range(0, stop, step)` for a positive `step`:
`0, step, 2*step, ...`, strictly below `stop`. -/
def pyRangeUp (stop step : Nat) : List Nat :=
  (List.range ((stop + step - 1) / step)).map (fun j => j * step)

/-- Python slice `l[i : i + size]` for nonnegative `i` and `size`. -/
def pySlice (l : List α) (i size : Nat) : List α :=
  (l.drop i).take size

/-- The chunks produced by `chunked(iterable, size)` for a positive chunk size
`s`: the slices `iterable[i : i + s]` at every `i` in `range(0, len(iterable), s)`. -/
def chunksList (l : List α) (s : Nat) : List (List α) :=
  (pyRangeUp l.length s).map (fun i => pySlice l i s)

/-- `chunked(iterable, size)` from `main.py` / `one_thousand_batch.py`.
Python's `range(0, len(iterable), size)` raises `ValueError` when `size = 0`,
is empty when `size < 0` (so the generator silently yields nothing), and
otherwise steps through `0, size, 2*size, ...`; each index yields the slice
`iterable[i : i + size]`. -/
def chunked (l : List α) (size : Int) : Except String (List (List α)) :=
  if size = 0 then Except.error "ValueError: range() arg 3 must not be zero"
  else if size < 0 then Except.ok []
  else Except.ok (chunksList l size.toNat)

theorem chunksList_nil (s : Nat) : chunksList ([] : List α) s = [] := by
  unfold chunksList pyRangeUp
  simp only [List.length_nil, Nat.zero_add]
  cases s with
  | zero => rfl
  | succ s =>
    rw [Nat.succ_sub_one, Nat.div_eq_of_lt (Nat.lt_succ_self s)]
    rfl

theorem chunk_count_succ (n s : Nat) (hs : 0 < s) (hn : 0 < n) :
    (n + s - 1) / s = ((n - s) + s - 1) / s + 1 := by
  have h1 : n + s - 1 = (n - 1) + s := by omega
  rw [h1, Nat.add_div_right _ hs]
  rcases Nat.lt_or_ge n s with h | h
  · have h2 : n - s = 0 := by omega
    rw [h2]
    have h3 : (n - 1) / s = 0 := Nat.div_eq_of_lt (by omega)
    have h4 : (0 + s - 1) / s = 0 := Nat.div_eq_of_lt (by omega)
    rw [h3, h4]
  · have h2 : n - s + s - 1 = n - 1 := by omega
    rw [h2]

theorem chunksList_cons (l : List α) (s : Nat) (hs : 0 < s) (hl : l ≠ []) :
    chunksList l s = l.take s :: chunksList (l.drop s) s := by
  have hn : 0 < l.length := List.length_pos.mpr hl
  show (pyRangeUp l.length s).map (fun i => pySlice l i s) = _
  rw [pyRangeUp, chunk_count_succ l.length s hs hn, List.range_succ_eq_map]
  rw [List.map_cons, List.map_cons, List.map_map, List.map_map]
  congr 1
  · simp [pySlice]
  · show _ = (pyRangeUp (l.drop s).length s).map (fun i => pySlice (l.drop s) i s)
    rw [List.length_drop, pyRangeUp, List.map_map]
    apply List.map_congr_left
    intro j _
    simp only [Function.comp_apply, pySlice, List.drop_drop]
    congr 2
    rw [Nat.succ_mul, Nat.add_comm]

theorem chunksList_join (s : Nat) (hs : 0 < s) :
    ∀ (n : Nat) (l : List α), l.length ≤ n → (chunksList l s).flatten = l := by
  intro n
  induction n with
  | zero =>
    intro l hl
    have h0 : l = [] := List.eq_nil_of_length_eq_zero (Nat.le_zero.mp hl)
    subst h0
    rw [chunksList_nil]
    rfl
  | succ n ih =>
    intro l hl
    by_cases hl0 : l = []
    · subst hl0
      rw [chunksList_nil]
      rfl
    · rw [chunksList_cons l s hs hl0, List.flatten_cons,
        ih (l.drop s) (by rw [List.length_drop]; omega), List.take_append_drop]

theorem chunksList_length_le (l : List α) (s : Nat) :
    ∀ c ∈ chunksList l s, c.length ≤ s := by
  intro c hc
  obtain ⟨i, _, rfl⟩ := List.mem_map.mp hc
  simp only [pySlice, List.length_take]
  exact Nat.min_le_left _ _

theorem chunksList_dropLast (s : Nat) (hs : 0 < s) :
    ∀ (n : Nat) (l : List α), l.length ≤ n →
      ∀ c ∈ (chunksList l s).dropLast, c.length = s := by
  intro n
  induction n with
  | zero =>
    intro l hl c hc
    have h0 : l = [] := List.eq_nil_of_length_eq_zero (Nat.le_zero.mp hl)
    subst h0
    rw [chunksList_nil] at hc
    simp at hc
  | succ n ih =>
    intro l hl c hc
    by_cases hl0 : l = []
    · subst hl0
      rw [chunksList_nil] at hc
      simp at hc
    · rw [chunksList_cons l s hs hl0] at hc
      rcases hrest : chunksList (l.drop s) s with _ | ⟨r, rs⟩
      · rw [hrest] at hc
        simp [List.dropLast] at hc
      · rw [hrest] at hc
        simp only [List.dropLast_cons₂, List.mem_cons] at hc
        rcases hc with rfl | hc2
        · have hds : l.drop s ≠ [] := by
            intro h0
            rw [h0, chunksList_nil] at hrest
            exact List.cons_ne_nil r rs hrest.symm
          have hlen : s < l.length := by
            by_contra hcon
            exact hds (List.drop_eq_nil_of_le (by omega))
          simp only [List.length_take]
          omega
        · exact ih (l.drop s) (by rw [List.length_drop]; omega) c
            (by rw [hrest]; exact hc2)

theorem chunksList_map_length (l : List α) (s : Nat) :
    (chunksList l s).map List.length
      = (pyRangeUp l.length s).map (fun i => min s (l.length - i)) := by
  unfold chunksList
  rw [List.map_map]
  apply List.map_congr_left
  intro i _
  simp [pySlice, List.length_take, List.length_drop]

/-- C1: for every sequence and positive chunk size, `chunked` succeeds and
its chunks concatenate back to the input in order, every chunk has length at
most the chunk size, every chunk except possibly the last has length exactly
the chunk size, and the empty input produces no chunks. -/
theorem chunked_reassembles (l : List α) (s : Int) (hs : 0 < s) :
    chunked l s = Except.ok (chunksList l s.toNat) ∧
    (chunksList l s.toNat).flatten = l ∧
    (∀ c ∈ chunksList l s.toNat, c.length ≤ s.toNat) ∧
    (∀ c ∈ (chunksList l s.toNat).dropLast, c.length = s.toNat) ∧
    (l = [] → chunksList l s.toNat = []) := by
  have hs0 : s ≠ 0 := ne_of_gt hs
  have hsn : 0 < s.toNat := by omega
  refine ⟨?_, ?_, ?_, ?_, ?_⟩
  · unfold chunked
    rw [if_neg hs0, if_neg (by omega : ¬ s < 0)]
  · exact chunksList_join _ hsn l.length l le_rfl
  · exact chunksList_length_le l _
  · exact chunksList_dropLast _ hsn l.length l le_rfl
  · intro h
    subst h
    exact chunksList_nil _

/-- Witness for C1: `chunked [1,2,3,4,5] 2` yields `[[1,2],[3,4],[5]]`, which
concatenates back, respects the bound, has all-but-last chunks of size 2, and
the empty list yields no chunks. -/
theorem chunked_reassembles_witness :
    chunked ([1, 2, 3, 4, 5] : List Nat) 2 = Except.ok [[1, 2], [3, 4], [5]] ∧
    ([[1, 2], [3, 4], [5]] : List (List Nat)).flatten = [1, 2, 3, 4, 5] ∧
    ([5] : List Nat).length ≤ (2 : Int).toNat ∧
    ([1, 2] : List Nat).length = (2 : Int).toNat ∧
    chunksList ([] : List Nat) (2 : Int).toNat = [] := by
  have h := chunked_reassembles ([1, 2, 3, 4, 5] : List Nat) 2 (by decide)
  have he := chunked_reassembles ([] : List Nat) 2 (by decide)
  refine ⟨h.1.trans (congrArg Except.ok (by decide)), by decide, ?_, ?_,
    he.2.2.2.2 rfl⟩
  · exact h.2.2.1 [5] (by decide)
  · exact h.2.2.2.1 [1, 2] (by decide)

/-- C7 counterexample: for the negative chunk size `-1` the chunker raises no
error and silently produces zero chunks, because `range(0, n, -1)` is empty. -/
theorem chunked_neg_size_silent :
    chunked ([0] : List Nat) (-1) = Except.ok ([] : List (List Nat)) := rfl

/-- C7 amended: for chunk size `0` the chunker fails fast with `ValueError`
(Python's invalid-argument condition for a zero `range` step); for a negative
chunk size it raises nothing and silently produces zero chunks. -/
theorem chunked_nonpos_size (α : Type) :
    (∀ l : List α,
        chunked l 0 = Except.error "ValueError: range() arg 3 must not be zero") ∧
    (∀ (l : List α) (s : Int), s < 0 → chunked l s = Except.ok []) := by
  constructor
  · intro l
    rfl
  · intro l s hneg
    unfold chunked
    rw [if_neg (by omega), if_pos hneg]

/-- Witness for C7 (amended): at chunk sizes `0` and `-2` on `[1]`. -/
theorem chunked_nonpos_size_witness :
    chunked ([1] : List Nat) 0
        = Except.error "ValueError: range() arg 3 must not be zero" ∧
    chunked ([1] : List Nat) (-2) = Except.ok [] := by
  have h := chunked_nonpos_size Nat
  exact ⟨h.1 [1], h.2 [1] (-2) (by decide)⟩

/-- The loop body of `batch_delete_messages`: one `batchDelete` API call per
chunk, in order.  `failsOn c = true` means the call for chunk `c` raises
`HttpError`, upon which the `except` clause prints the error and the function
returns without issuing further calls.  The first component is the list of
chunk payloads actually submitted to the API; the second is `true` when every
call succeeded and `false` when the run was cut short by a caught `HttpError`. -/
def batchDeleteLoop (failsOn : List α → Bool) : List (List α) → List (List α) × Bool
  | [] => ([], true)
  | c :: cs =>
    if failsOn c then ([c], false)
    else
      let rest := batchDeleteLoop failsOn cs
      (c :: rest.1, rest.2)

/-- `batch_delete_messages(service, user_id, message_ids)` from both scripts:
splits the ids into chunks of 1000 (the API limit) and issues one bulk-delete
call per chunk, stopping at the first `HttpError`. -/
def batch_delete_messages (failsOn : List α → Bool) (messageIds : List α) :
    List (List α) × Bool :=
  batchDeleteLoop failsOn (chunksList messageIds 1000)

theorem batchDeleteLoop_ok (failsOn : List α → Bool)
    (h : ∀ c, failsOn c = false) :
    ∀ cs : List (List α), batchDeleteLoop failsOn cs = (cs, true) := by
  intro cs
  induction cs with
  | nil => rfl
  | cons c cs ih => simp [batchDeleteLoop, h c, ih]

theorem countP_mem_of_flatten_nodup [DecidableEq α] :
    ∀ cs : List (List α), cs.flatten.Nodup → ∀ a ∈ cs.flatten,
      cs.countP (fun c => decide (a ∈ c)) = 1 := by
  intro cs
  induction cs with
  | nil =>
    intro _ a ha
    simp at ha
  | cons c cs ih =>
    intro hnd a ha
    rw [List.flatten_cons, List.nodup_append] at hnd
    obtain ⟨h1, h2, hdisj⟩ := hnd
    rw [List.flatten_cons] at ha
    rw [List.countP_cons]
    rcases List.mem_append.mp ha with hac | hacs
    · have hz : cs.countP (fun c => decide (a ∈ c)) = 0 := by
        rw [List.countP_eq_zero]
        intro c' hc'
        simp only [decide_eq_true_eq]
        intro hmem
        exact hdisj hac (List.mem_flatten.mpr ⟨c', hc', hmem⟩)
      rw [hz]
      simp [hac]
    · have hnc : a ∉ c := fun hmem => hdisj hmem hacs
      rw [ih h2 a hacs]
      simp [hnc]

/-- C2: for a list of 2500 message ids with no duplicates, against an API
where every bulk-delete call succeeds, `batch_delete_messages` issues exactly
3 bulk-delete calls of sizes 1000, 1000 and 500 in that order, the calls
concatenate back to the id list, the run completes without error, and every
id appears in exactly one call. -/
theorem batch_delete_2500 [DecidableEq α] (messageIds : List α)
    (failsOn : List α → Bool) (hlen : messageIds.length = 2500)
    (hok : ∀ c, failsOn c = false) (hnd : messageIds.Nodup) :
    (batch_delete_messages failsOn messageIds).1.length = 3 ∧
    (batch_delete_messages failsOn messageIds).1.map List.length
        = [1000, 1000, 500] ∧
    (batch_delete_messages failsOn messageIds).1.flatten = messageIds ∧
    (batch_delete_messages failsOn messageIds).2 = true ∧
    ∀ a ∈ messageIds,
      (batch_delete_messages failsOn messageIds).1.countP
        (fun c => decide (a ∈ c)) = 1 := by
  have hrun : batch_delete_messages failsOn messageIds
      = (chunksList messageIds 1000, true) := batchDeleteLoop_ok failsOn hok _
  rw [hrun]
  have hflat : (chunksList messageIds 1000).flatten = messageIds :=
    chunksList_join 1000 (by omega) messageIds.length messageIds le_rfl
  have hmap : (chunksList messageIds 1000).map List.length = [1000, 1000, 500] := by
    rw [chunksList_map_length, hlen]
    decide
  refine ⟨?_, hmap, hflat, rfl, ?_⟩
  · have hc := congrArg List.length hmap
    simpa using hc
  · intro a ha
    exact countP_mem_of_flatten_nodup _ (by rw [hflat]; exact hnd) a
      (by rw [hflat]; exact ha)

/-- Witness for C2 at the 2500 distinct ids `0, ..., 2499` with an API where
no call fails. -/
theorem batch_delete_2500_witness :
    (batch_delete_messages (fun _ => false) (List.range 2500)).1.map List.length
        = [1000, 1000, 500] ∧
    (batch_delete_messages (fun _ => false) (List.range 2500)).1.flatten
        = List.range 2500 ∧
    (batch_delete_messages (fun _ => false) (List.range 2500)).1.countP
        (fun c => decide ((7 : Nat) ∈ c)) = 1 := by
  have h := batch_delete_2500 (List.range 2500) (fun _ => false)
    (List.length_range 2500) (fun _ => rfl) (List.nodup_range 2500)
  exact ⟨h.2.1, h.2.2.1, h.2.2.2.2 7 (List.mem_range.mpr (by omega))⟩

theorem batchDeleteLoop_fail (failsOn : List α → Bool) :
    ∀ (cs : List (List α)) (k : Nat), k < cs.length →
      (∀ i, i < k → failsOn (cs.getD i []) = false) →
      failsOn (cs.getD k []) = true →
      batchDeleteLoop failsOn cs = (cs.take (k + 1), false) := by
  intro cs
  induction cs with
  | nil =>
    intro k hk
    simp at hk
  | cons c cs ih =>
    intro k hk hprev hfail
    cases k with
    | zero =>
      rw [List.getD_cons_zero] at hfail
      simp [batchDeleteLoop, hfail]
    | succ k =>
      have h0 : failsOn c = false := by
        have hp := hprev 0 (Nat.succ_pos k)
        rwa [List.getD_cons_zero] at hp
      have hrec := ih k (by simpa using hk)
        (fun i hi => by
          have hp := hprev (i + 1) (by omega)
          rwa [List.getD_cons_succ] at hp)
        (by rwa [List.getD_cons_succ] at hfail)
      simp [batchDeleteLoop, h0, hrec]

/-- C6: when the bulk-delete call for chunk `k` raises after the calls for
chunks `0..k-1` succeeded, the earlier calls stay issued and applied (no
compensating call follows), the `HttpError` is caught at the function and
printed (outcome flag `false`), and the function returns at once: the
submitted calls are exactly the chunks up to and including `k` — no retry, no
further call. -/
theorem batch_delete_partial_failure (failsOn : List α → Bool)
    (messageIds : List α) (k : Nat)
    (hk : k < (chunksList messageIds 1000).length)
    (hprev : ∀ i, i < k → failsOn ((chunksList messageIds 1000).getD i []) = false)
    (hfail : failsOn ((chunksList messageIds 1000).getD k []) = true) :
    batch_delete_messages failsOn messageIds
      = ((chunksList messageIds 1000).take (k + 1), false) := by
  unfold batch_delete_messages
  exact batchDeleteLoop_fail failsOn _ k hk hprev hfail

/-- Witness for C6: ids `0..1000` split into chunks of sizes 1000 and 1; the
call for the second chunk (index 1) fails after the first succeeded. -/
theorem batch_delete_partial_failure_witness :
    batch_delete_messages (fun c => c.length == 1) (List.range 1001)
      = ((chunksList (List.range 1001) 1000).take 2, false) := by
  have h := batch_delete_partial_failure (fun c => c.length == 1)
    (List.range 1001) 1 (by decide)
    (by
      intro i hi
      have h0 : i = 0 := by omega
      subst h0
      decide)
    (by decide)
  exact h

/-- One page of a `users().messages().list(...)` response: the message ids
under `"messages"` and the optional `"nextPageToken"`. -/
structure Page where
  messages : List String
  nextPageToken : Option String

/-- An observable remote API call issued by the scripts. -/
inductive ApiCall where
  | labelsList
  | labelsCreate (name labelListVisibility messageListVisibility : String)
  | messagesList (q : String) (maxResults : Nat) (pageToken : Option String)
  | batchModify (ids removeLabelIds addLabelIds : List String)
deriving DecidableEq

/-- `true` for the calls issued against the labels endpoint. -/
def ApiCall.touchesLabels : ApiCall → Bool
  | .labelsList => true
  | .labelsCreate _ _ _ => true
  | _ => false

def ApiCall.isLabelsList : ApiCall → Bool
  | .labelsList => true
  | _ => false

def ApiCall.isLabelsCreate : ApiCall → Bool
  | .labelsCreate _ _ _ => true
  | _ => false

def ApiCall.isBatchModify : ApiCall → Bool
  | .batchModify _ _ _ => true
  | _ => false

/-- `true` unless the call is a `batchModify` whose body differs from removing
exactly `rem` and adding exactly `add`. -/
def ApiCall.modifyBodyIs (rem add : List String) : ApiCall → Bool
  | .batchModify _ r a => r == rem && a == add
  | _ => true

/-- A label known to the mailbox: its user-visible name and its server id. -/
structure GLabel where
  name : String
  id : String

/-- `get_or_create_label(service, user_id, label_name)` from `main.py`: lists
the labels, scans them in order for an exact name match and returns that
label's id; otherwise creates the label (visible in both the label list and
the message list) and returns the id the server assigns, modelled as `newId`.
The second component is the trace of API calls issued. -/
def get_or_create_label (labels : List GLabel) (labelName newId : String) :
    String × List ApiCall :=
  match labels.find? (fun l => l.name == labelName) with
  | some l => (l.id, [ApiCall.labelsList])
  | none =>
      (newId, [ApiCall.labelsList,
        ApiCall.labelsCreate labelName "labelShow" "show"])

/-- C5: if the label list contains an exact name match, the resolver returns
the (first) matching label's existing id and issues zero create calls; if no
exact match exists it issues exactly one create call and returns the newly
assigned id. -/
theorem get_or_create_label_correct (labels : List GLabel)
    (labelName newId : String) :
    ((∃ l ∈ labels, l.name = labelName) →
      (get_or_create_label labels labelName newId).2.countP
          ApiCall.isLabelsCreate = 0 ∧
      ∃ l ∈ labels, l.name = labelName ∧
        (get_or_create_label labels labelName newId).1 = l.id) ∧
    ((∀ l ∈ labels, l.name ≠ labelName) →
      (get_or_create_label labels labelName newId).2.countP
          ApiCall.isLabelsCreate = 1 ∧
      (get_or_create_label labels labelName newId).1 = newId) := by
  constructor
  · intro hex
    have hsome : (labels.find? (fun l => l.name == labelName)).isSome := by
      rw [List.find?_isSome]
      obtain ⟨l, hl, he⟩ := hex
      exact ⟨l, hl, by simp [he]⟩
    obtain ⟨l, hfind⟩ := Option.isSome_iff_exists.mp hsome
    have hmem := List.mem_of_find?_eq_some hfind
    have hname : l.name = labelName := by
      have hp := List.find?_some hfind
      simpa using hp
    refine ⟨?_, l, hmem, hname, ?_⟩
    · unfold get_or_create_label
      rw [hfind]
      rfl
    · unfold get_or_create_label
      rw [hfind]

  · intro hnone
    have hfind : labels.find? (fun l => l.name == labelName) = none := by
      rw [List.find?_eq_none]
      intro l hl
      simpa using hnone l hl
    constructor
    · unfold get_or_create_label
      rw [hfind]
      rfl
    · unfold get_or_create_label
      rw [hfind]

/-- Witness for C5: resolving `"A"` against the one-label list `[("A","id1")]`
reuses `id1` with zero creates; resolving `"B"` against the same list issues
one create and returns the assigned id. -/
theorem get_or_create_label_witness :
    (get_or_create_label [⟨"A", "id1"⟩] "A" "newid").2.countP
        ApiCall.isLabelsCreate = 0 ∧
    (get_or_create_label [⟨"A", "id1"⟩] "A" "newid").1 = "id1" ∧
    (get_or_create_label [⟨"A", "id1"⟩] "B" "newid").2.countP
        ApiCall.isLabelsCreate = 1 ∧
    (get_or_create_label [⟨"A", "id1"⟩] "B" "newid").1 = "newid" := by
  have h1 := (get_or_create_label_correct [⟨"A", "id1"⟩] "A" "newid").1
    ⟨⟨"A", "id1"⟩, by simp, rfl⟩
  have h2 := (get_or_create_label_correct [⟨"A", "id1"⟩] "B" "newid").2
    (by
      intro l hl
      rw [List.mem_singleton] at hl
      subst hl
      decide)
  obtain ⟨hz, l, hlmem, _, hid⟩ := h1
  rw [List.mem_singleton] at hlmem
  subst hlmem
  exact ⟨hz, hid, h2.1, h2.2⟩

/-- The body of the `while True` loop of `mark_as_read`, with the remote
service modelled as an oracle from the supplied page token to the response
page, and an explicit iteration budget `fuel` (the source has no bound; a
second component of `none` means the budget ran out with the loop still
going).  The first component is the trace of API calls issued, the second the
reported total when the loop finished. -/
def markAsReadLoop (server : Option String → Page) :
    Nat → Option String → Nat → List ApiCall × Option Nat
  | 0, _, _ => ([], none)
  | fuel + 1, tok, total =>
    let p := server tok
    let listCall := ApiCall.messagesList "is:unread" 1000 tok
    if p.messages.isEmpty then ([listCall], some total)
    else
      let modCall := ApiCall.batchModify p.messages ["UNREAD"] []
      match p.nextPageToken with
      | none => ([listCall, modCall], some (total + p.messages.length))
      | some t =>
          let rest := markAsReadLoop server fuel (some t) (total + p.messages.length)
          (listCall :: modCall :: rest.1, rest.2)

/-- `mark_as_read(service, user_id)` from `main.py`, allowed up to `fuel`
loop iterations. -/
def mark_as_read (server : Option String → Page) (fuel : Nat) :
    List ApiCall × Option Nat :=
  markAsReadLoop server fuel none 0

/-- The `while True` loop of `archive_all_mail`: like `markAsReadLoop` but
over the `in:inbox` query, each page's `batchModify` removing `INBOX` and
adding the single resolved label id. -/
def archiveLoop (server : Option String → Page) (labelId : String) :
    Nat → Option String → Nat → List ApiCall × Option Nat
  | 0, _, _ => ([], none)
  | fuel + 1, tok, total =>
    let p := server tok
    let listCall := ApiCall.messagesList "in:inbox" 1000 tok
    if p.messages.isEmpty then ([listCall], some total)
    else
      let modCall := ApiCall.batchModify p.messages ["INBOX"] [labelId]
      match p.nextPageToken with
      | none => ([listCall, modCall], some (total + p.messages.length))
      | some t =>
          let rest := archiveLoop server labelId fuel (some t) (total + p.messages.length)
          (listCall :: modCall :: rest.1, rest.2)

/-- `archive_all_mail(service, user_id)` from `main.py`: takes the timestamp
`now` once, derives the label name `archive_<now>` once, resolves it once via
`get_or_create_label`, then pages through `in:inbox` applying that single
label id to every page. -/
def archive_all_mail (server : Option String → Page) (labels : List GLabel)
    (newId now : String) (fuel : Nat) : List ApiCall × Option Nat :=
  let resolved := get_or_create_label labels ("archive_" ++ now) newId
  let run := archiveLoop server resolved.1 fuel none 0
  (resolved.2 ++ run.1, run.2)

/-- The defensive case of C3: a remote service that always answers with one
message and the same continuation token, making no progress. -/
def stuckServer : Option String → Page :=
  fun _ => ⟨["m1"], some "tok0"⟩

/-- C3: the pagination loops do NOT terminate on a non-advancing continuation
token.  Under `stuckServer` no iteration budget suffices: for every `fuel`,
both `mark_as_read`'s loop and `archive_all_mail`'s loop are still running
when the budget runs out — the code has no iteration cap and no
repeated-token detection. -/
theorem pagination_no_guard :
    (∀ (fuel : Nat) (tok : Option String) (total : Nat),
        (markAsReadLoop stuckServer fuel tok total).2 = none) ∧
    (∀ (labelId : String) (fuel : Nat) (tok : Option String) (total : Nat),
        (archiveLoop stuckServer labelId fuel tok total).2 = none) := by
  constructor
  · intro fuel
    induction fuel with
    | zero =>
      intro tok total
      rfl
    | succ fuel ih =>
      intro tok total
      simp only [markAsReadLoop, stuckServer]
      exact ih (some "tok0") (total + 1)
  · intro labelId fuel
    induction fuel with
    | zero =>
      intro tok total
      rfl
    | succ fuel ih =>
      intro tok total
      simp only [archiveLoop, stuckServer]
      exact ih (some "tok0") (total + 1)

/-- C8: when the first page of the `is:unread` query returns zero messages,
`mark_as_read` issues zero `batchModify` calls and reports a total of zero. -/
theorem mark_as_read_empty (server : Option String → Page) (fuel : Nat)
    (hempty : (server none).messages = []) (hfuel : 0 < fuel) :
    (mark_as_read server fuel).1.countP ApiCall.isBatchModify = 0 ∧
    (mark_as_read server fuel).2 = some 0 := by
  cases fuel with
  | zero => exact absurd hfuel (lt_irrefl 0)
  | succ fuel =>
    unfold mark_as_read markAsReadLoop
    simp [hempty, ApiCall.isBatchModify]

/-- Witness for C8: a server with no unread messages and one allowed loop
iteration. -/
theorem mark_as_read_empty_witness :
    (mark_as_read (fun _ => ⟨[], none⟩) 1).1.countP ApiCall.isBatchModify = 0 ∧
    (mark_as_read (fun _ => ⟨[], none⟩) 1).2 = some 0 :=
  mark_as_read_empty (fun _ => ⟨[], none⟩) 1 rfl (by decide)

theorem archiveLoop_no_label_calls (server : Option String → Page)
    (labelId : String) :
    ∀ (fuel : Nat) (tok : Option String) (total : Nat),
      (archiveLoop server labelId fuel tok total).1.all
        (fun c => !c.touchesLabels) = true := by
  intro fuel
  induction fuel with
  | zero =>
    intro tok total
    rfl
  | succ fuel ih =>
    intro tok total
    by_cases hm : (server tok).messages.isEmpty
    · simp [archiveLoop, hm, ApiCall.touchesLabels]
    · rcases ht : (server tok).nextPageToken with _ | t
      · simp [archiveLoop, hm, ht, ApiCall.touchesLabels]
      · simp only [archiveLoop, hm, ht, Bool.if_false_left]
        simp [List.all_cons, ApiCall.touchesLabels]
        intro x hx
        have hx2 := List.all_eq_true.mp
          (ih (some t) (total + (server tok).messages.length)) x hx
        simpa [ApiCall.touchesLabels] using hx2

theorem archiveLoop_modify_body (server : Option String → Page)
    (labelId : String) :
    ∀ (fuel : Nat) (tok : Option String) (total : Nat),
      (archiveLoop server labelId fuel tok total).1.all
        (ApiCall.modifyBodyIs ["INBOX"] [labelId]) = true := by
  intro fuel
  induction fuel with
  | zero =>
    intro tok total
    rfl
  | succ fuel ih =>
    intro tok total
    by_cases hm : (server tok).messages.isEmpty
    · simp [archiveLoop, hm, ApiCall.modifyBodyIs]
    · rcases ht : (server tok).nextPageToken with _ | t
      · simp [archiveLoop, hm, ht, ApiCall.modifyBodyIs]
      · simp only [archiveLoop, hm, ht]
        simp [List.all_cons, ApiCall.modifyBodyIs, ih (some t)]

theorem get_or_create_label_trace (labels : List GLabel)
    (labelName newId : String) :
    (get_or_create_label labels labelName newId).2.countP
        ApiCall.isLabelsList = 1 ∧
    (get_or_create_label labels labelName newId).2.all
        (ApiCall.modifyBodyIs ["INBOX"]
          [(get_or_create_label labels labelName newId).1]) = true := by
  unfold get_or_create_label
  cases labels.find? (fun l => l.name == labelName) with
  | none => exact ⟨rfl, rfl⟩
  | some l => exact ⟨rfl, rfl⟩

theorem countP_isLabelsList_eq_zero (tr : List ApiCall)
    (h : tr.all (fun c => !c.touchesLabels) = true) :
    tr.countP ApiCall.isLabelsList = 0 := by
  rw [List.countP_eq_zero]
  intro c hc
  have hcall := List.all_eq_true.mp h c hc
  cases c <;> simp_all [ApiCall.touchesLabels, ApiCall.isLabelsList]

/-- C4: in one invocation of `archive_all_mail` the timestamped label name
`archive_<now>` is fixed once up-front and its id is resolved exactly once —
the trace is the resolver's calls (the single `labels.list`, plus at most the
one create) followed by page traffic that never touches the labels endpoint —
and every page's `batchModify` removes exactly the `INBOX` marker and adds
exactly the single resolved label id, however many pages the run spans. -/
theorem archive_single_label (server : Option String → Page)
    (labels : List GLabel) (newId now : String) (fuel : Nat) :
    (archive_all_mail server labels newId now fuel).1
        = (get_or_create_label labels ("archive_" ++ now) newId).2
          ++ (archiveLoop server
                (get_or_create_label labels ("archive_" ++ now) newId).1
                fuel none 0).1 ∧
    (archive_all_mail server labels newId now fuel).1.countP
        ApiCall.isLabelsList = 1 ∧
    (archiveLoop server (get_or_create_label labels ("archive_" ++ now) newId).1
        fuel none 0).1.all (fun c => !c.touchesLabels) = true ∧
    (archive_all_mail server labels newId now fuel).1.all
        (ApiCall.modifyBodyIs ["INBOX"]
          [(get_or_create_label labels ("archive_" ++ now) newId).1]) = true := by
  have hres := get_or_create_label_trace labels ("archive_" ++ now) newId
  have hloopL := archiveLoop_no_label_calls server
    (get_or_create_label labels ("archive_" ++ now) newId).1 fuel none 0
  have hloopM := archiveLoop_modify_body server
    (get_or_create_label labels ("archive_" ++ now) newId).1 fuel none 0
  refine ⟨rfl, ?_, hloopL, ?_⟩
  · show ((get_or_create_label labels ("archive_" ++ now) newId).2
        ++ (archiveLoop server
             (get_or_create_label labels ("archive_" ++ now) newId).1
             fuel none 0).1).countP ApiCall.isLabelsList = 1
    rw [List.countP_append, hres.1, countP_isLabelsList_eq_zero _ hloopL]
  · show ((get_or_create_label labels ("archive_" ++ now) newId).2
        ++ (archiveLoop server
             (get_or_create_label labels ("archive_" ++ now) newId).1
             fuel none 0).1).all
        (ApiCall.modifyBodyIs ["INBOX"]
          [(get_or_create_label labels ("archive_" ++ now) newId).1]) = true
    rw [List.all_append, hres.2, hloopM]
    rfl

/-- `print_batch_and_ask_for_deletion(messages, service, user_id)` from
`one_thousand_batch.py`: despite its name the printing is commented out and no
confirmation is read from stdin; whenever `messages` is non-empty the whole
accumulated id list is passed straight to `batch_delete_messages`.  Returns
the id lists submitted for deletion (at most one entry) and the number of
stdin reads performed (none in this code). -/
def print_batch_and_ask_for_deletion (messages : List String) :
    List (List String) × Nat :=
  (if messages.isEmpty then [] else [messages], 0)

/-- The `while nextPageToken:` loop of `search_messages` in
`one_thousand_batch.py`.  The remote service is modelled as the script of the
successive responses it would return (an exhausted script answers the empty
page).  `acc` is the accumulated `messages` list, which each iteration extends
with the new page and then passes WHOLE to `print_batch_and_ask_for_deletion`;
the loop breaks after a submission once 1000 ids have accumulated.  Returns
all id lists submitted for deletion and the total number of stdin reads. -/
def otbSearchLoop : List String → Option String → List Page →
    List (List String) × Nat
  | _, none, _ => ([], 0)
  | acc, some _, [] => print_batch_and_ask_for_deletion acc
  | acc, some _, p :: rest =>
    let acc2 := acc ++ p.messages
    let sub := print_batch_and_ask_for_deletion acc2
    if 1000 ≤ acc2.length then sub
    else
      let next := otbSearchLoop acc2 p.nextPageToken rest
      (sub.1 ++ next.1, sub.2 + next.2)

/-- `search_messages(service, user_id, query)` from `one_thousand_batch.py`:
fetches the first page, immediately submits it for deletion, then runs the
continuation-token loop. -/
def otbSearchMessages (script : List Page) : List (List String) × Nat :=
  match script with
  | [] => print_batch_and_ask_for_deletion []
  | p :: rest =>
    let sub := print_batch_and_ask_for_deletion p.messages
    let next := otbSearchLoop p.messages p.nextPageToken rest
    (sub.1 ++ next.1, sub.2 + next.2)

theorem mem_of_pref {xs ys : List α} (h : xs <+: ys) {a : α} (ha : a ∈ xs) :
    a ∈ ys := by
  obtain ⟨t, rfl⟩ := h
  exact List.mem_append_left t ha

theorem print_batch_sub_mem (messages s : List String)
    (hs : s ∈ (print_batch_and_ask_for_deletion messages).1) : s = messages := by
  by_cases h : messages.isEmpty <;>
    simp [print_batch_and_ask_for_deletion, h] at hs
  exact hs

theorem otbSearchLoop_sub_pref :
    ∀ (rest : List Page) (acc : List String) (tok : Option String),
      ∀ s ∈ (otbSearchLoop acc tok rest).1, acc <+: s := by
  intro rest
  induction rest with
  | nil =>
    intro acc tok s hs
    cases tok with
    | none => simp [otbSearchLoop] at hs
    | some t =>
      have hs2 := print_batch_sub_mem acc s hs
      rw [hs2]
  | cons p rest ih =>
    intro acc tok s hs
    cases tok with
    | none => simp [otbSearchLoop] at hs
    | some t =>
      simp only [otbSearchLoop] at hs
      by_cases hlen : 1000 ≤ (acc ++ p.messages).length
      · rw [if_pos hlen] at hs
        have hs2 := print_batch_sub_mem _ s hs
        rw [hs2]
        exact List.prefix_append acc p.messages
      · rw [if_neg hlen] at hs
        rcases List.mem_append.mp hs with h1 | h2
        · have hs2 := print_batch_sub_mem _ s h1
          rw [hs2]
          exact List.prefix_append acc p.messages
        · exact (List.prefix_append acc p.messages).trans
            (ih (acc ++ p.messages) p.nextPageToken s h2)

theorem otbSearchLoop_pairwise :
    ∀ (rest : List Page) (acc : List String) (tok : Option String),
      (otbSearchLoop acc tok rest).1.Pairwise (fun a b => a <+: b) := by
  intro rest
  induction rest with
  | nil =>
    intro acc tok
    cases tok with
    | none => simp [otbSearchLoop]
    | some t =>
      by_cases h : acc.isEmpty <;>
        simp [otbSearchLoop, print_batch_and_ask_for_deletion, h]
  | cons p rest ih =>
    intro acc tok
    cases tok with
    | none => simp [otbSearchLoop]
    | some t =>
      simp only [otbSearchLoop]
      by_cases hlen : 1000 ≤ (acc ++ p.messages).length
      · rw [if_pos hlen]
        by_cases h : (acc ++ p.messages).isEmpty <;>
          simp [print_batch_and_ask_for_deletion, h]
      · rw [if_neg hlen]
        rw [List.pairwise_append]
        refine ⟨?_, ih (acc ++ p.messages) p.nextPageToken, ?_⟩
        · by_cases h : (acc ++ p.messages).isEmpty <;>
            simp [print_batch_and_ask_for_deletion, h]
        · intro a ha b hb
          have ha2 := print_batch_sub_mem _ a ha
          rw [ha2]
          exact otbSearchLoop_sub_pref rest (acc ++ p.messages) p.nextPageToken b hb

theorem otbSearchLoop_reads :
    ∀ (rest : List Page) (acc : List String) (tok : Option String),
      (otbSearchLoop acc tok rest).2 = 0 := by
  intro rest
  induction rest with
  | nil =>
    intro acc tok
    cases tok with
    | none => rfl
    | some t => rfl
  | cons p rest ih =>
    intro acc tok
    cases tok with
    | none => rfl
    | some t =>
      simp only [otbSearchLoop]
      by_cases hlen : 1000 ≤ (acc ++ p.messages).length
      · rw [if_pos hlen]
        rfl
      · rw [if_neg hlen]
        simp [print_batch_and_ask_for_deletion,
          ih (acc ++ p.messages) p.nextPageToken]

theorem otbSearchMessages_reads (script : List Page) :
    (otbSearchMessages script).2 = 0 := by
  cases script with
  | nil => rfl
  | cons p rest =>
    simp only [otbSearchMessages]
    simp [print_batch_and_ask_for_deletion,
      otbSearchLoop_reads rest p.messages p.nextPageToken]

/-- C9: in the capped variant each delete submission is the ENTIRE accumulated
message list, not only the new page: successive submissions grow in prefix
order, so every id fetched on an earlier page is submitted for deletion again
in every subsequent submission — and no confirmation is read from stdin at
any point. -/
theorem otb_resubmits_accumulated (script : List Page) :
    (otbSearchMessages script).1.Pairwise (fun a b => a <+: b) ∧
    (∀ i j, i < j → j < (otbSearchMessages script).1.length →
      ∀ a, a ∈ (otbSearchMessages script).1.getD i [] →
        a ∈ (otbSearchMessages script).1.getD j []) ∧
    (otbSearchMessages script).2 = 0 := by
  have hpw : (otbSearchMessages script).1.Pairwise (fun a b => a <+: b) := by
    cases script with
    | nil => simp [otbSearchMessages, print_batch_and_ask_for_deletion]
    | cons p rest =>
      simp only [otbSearchMessages]
      rw [List.pairwise_append]
      refine ⟨?_, otbSearchLoop_pairwise rest p.messages p.nextPageToken, ?_⟩
      · by_cases h : p.messages.isEmpty <;>
          simp [print_batch_and_ask_for_deletion, h]
      · intro a ha b hb
        have ha2 := print_batch_sub_mem _ a ha
        rw [ha2]
        exact otbSearchLoop_sub_pref rest p.messages p.nextPageToken b hb
  refine ⟨hpw, ?_, otbSearchMessages_reads script⟩
  intro i j hij hj a hai
  have hi : i < (otbSearchMessages script).1.length := lt_trans hij hj
  have hpref := (List.pairwise_iff_getElem.mp hpw) i j hi hj hij
  rw [List.getD_eq_getElem _ _ hi] at hai
  rw [List.getD_eq_getElem _ _ hj]
  exact mem_of_pref hpref hai

/-- Witness for C9: a two-page script; the id `"a"` fetched on the first page
appears again in the second delete submission, and no stdin read happens. -/
theorem otb_resubmits_accumulated_witness :
    ("a" ∈ (otbSearchMessages
        [⟨["a"], some "t1"⟩, ⟨["b"], none⟩]).1.getD 1 []) ∧
    (otbSearchMessages [⟨["a"], some "t1"⟩, ⟨["b"], none⟩]).2 = 0 := by
  have h := otb_resubmits_accumulated [⟨["a"], some "t1"⟩, ⟨["b"], none⟩]
  exact ⟨h.2.1 0 1 (by decide) (by decide) "a" (by decide), h.2.2⟩

/-- Python's `str.lower()` on one character, for the ASCII range the scripts
compare against (`"y"`, `"yes"`). -/
def pyCharLower (c : Char) : Char :=
  if 65 ≤ c.toNat ∧ c.toNat ≤ 90 then Char.ofNat (c.toNat + 32) else c

/-- Python's `str.lower()`: lowercases every character. -/
def pyLower (s : String) : String :=
  String.mk (s.data.map pyCharLower)

/-- Outcome of the `--search` path of `main()` in `main.py`. -/
structure MainRun where
  printedList : Bool
  deletedIds : Option (List String)
  promptsRead : Nat

/-- The `--search` path of `main()` in `main.py`.  When matches exist the
program reads a first stdin line and prints the list only when its lowercasing
equals `"y"`; when `--delete` is also given (and matches exist) it reads a
second stdin line and runs `batch_delete_messages` on the matched ids only
when its lowercasing equals `"yes"`.  `input1`/`input2` are the stdin lines
offered to the two prompts; `promptsRead` counts the prompts actually read. -/
def mainSearchPath (messages : List String) (deleteFlag : Bool)
    (input1 input2 : String) : MainRun :=
  let total := messages.length
  let prompt1 : Bool := decide (0 < total)
  let printed := prompt1 && (pyLower input1 == "y")
  let prompt2 := deleteFlag && decide (0 < total)
  let deleted := prompt2 && (pyLower input2 == "yes")
  ⟨printed, if deleted then some messages else none,
    (if prompt1 then 1 else 0) + (if prompt2 then 1 else 0)⟩

/-- The confirmation acceptance rule exactly as C10 states it (modelled from
the spec's words, for comparison with the code): a case-insensitive `"y"` or
`"yes"` proceeds. -/
def specConfirmAccepts (s : String) : Bool :=
  pyLower s == "y" || pyLower s == "yes"

/-- C10 counterexample: with one match and `--delete` given, answering the
delete prompt with `"y"` — accepted by the claim's case-insensitive y-or-yes
rule — does NOT delete (the code demands exactly `"yes"`); dually, answering
the print prompt with `"yes"` does not print (the code demands exactly
`"y"`).  Both prompts were genuinely read. -/
theorem main_confirm_counterexample :
    specConfirmAccepts "y" = true ∧
    (mainSearchPath ["m1"] true "n" "y").deletedIds = none ∧
    specConfirmAccepts "yes" = true ∧
    (mainSearchPath ["m1"] true "yes" "yes").printedList = false ∧
    (mainSearchPath ["m1"] true "n" "y").promptsRead = 2 := by
  refine ⟨?_, ?_, ?_, ?_, ?_⟩ <;> rfl

/-- C10 amended: `main.py` reads a confirmation before printing and prints iff
the lowercased input is exactly `"y"`; it reads a confirmation before deleting
and deletes (exactly the matched ids) iff `--delete` is set, matches exist and
the lowercased input is exactly `"yes"`; a declined confirmation deletes
nothing and is a normal no-op outcome; and the capped variant
(`one_thousand_batch.py`) reads no confirmation at all before deleting. -/
theorem main_confirm_semantics (messages : List String) (deleteFlag : Bool)
    (input1 input2 : String) :
    ((mainSearchPath messages deleteFlag input1 input2).printedList = true ↔
      0 < messages.length ∧ pyLower input1 = "y") ∧
    ((mainSearchPath messages deleteFlag input1 input2).deletedIds
        = some messages ↔
      deleteFlag = true ∧ 0 < messages.length ∧ pyLower input2 = "yes") ∧
    (pyLower input2 ≠ "yes" →
      (mainSearchPath messages deleteFlag input1 input2).deletedIds = none) ∧
    (∀ script : List Page, (otbSearchMessages script).2 = 0) := by
  refine ⟨?_, ?_, ?_, fun script => otbSearchMessages_reads script⟩
  · by_cases h2 : 0 < messages.length <;>
      by_cases h3 : pyLower input1 = "y" <;>
      simp [mainSearchPath, h2, h3]
  · by_cases h1 : deleteFlag <;> by_cases h2 : 0 < messages.length <;>
      by_cases h3 : pyLower input2 = "yes" <;>
      simp [mainSearchPath, h1, h2, h3]
  · intro h
    have hb : (pyLower input2 == "yes") = false := beq_eq_false_iff_ne.mpr h
    simp [mainSearchPath, hb]

/-- Witness for C10 (amended): `"Y"` prints, `"YES"` deletes exactly the
matched ids, `"no"` declines and deletes nothing. -/
theorem main_confirm_semantics_witness :
    (mainSearchPath ["m1"] true "Y" "YES").printedList = true ∧
    (mainSearchPath ["m1"] true "Y" "YES").deletedIds = some ["m1"] ∧
    (mainSearchPath ["m1"] true "Y" "no").deletedIds = none := by
  have h1 := main_confirm_semantics ["m1"] true "Y" "YES"
  have h2 := main_confirm_semantics ["m1"] true "Y" "no"
  exact ⟨h1.1.mpr ⟨by decide, by decide⟩,
    h1.2.1.mpr ⟨rfl, by decide, by decide⟩,
    h2.2.2.1 (by decide)⟩

end EmailBlaster
